import Mathlib

/-!
Shallow embedding of the csview engine (src/main.py, class CSVViewer).
Cell values and filter patterns are lists of characters; rows are
association lists from column names to values, mirroring the Python
dicts produced by csv.DictReader.  Python str.lower is modelled by
mapping Char.toLower over the characters, and the case-insensitive
substring test `p.lower() in v.lower()` by List.IsInfix on the lowered
character lists.
-/

abbrev Value := List Char

/-- Model of Python str.lower applied to a cell value or pattern. -/
def lowerV (v : Value) : Value := v.map Char.toLower

/-- Model of Python string comparison (lexicographic by code point),
used by list.sort with key x[0]. -/
def strLt : Value → Value → Bool
  | [], [] => false
  | [], _ :: _ => true
  | _ :: _, [] => false
  | a :: as, b :: bs => if a < b then true else if b < a then false else strLt as bs

/-- A row, as produced by csv.DictReader: an association list from
column name to raw string value. -/
abbrev Row := List (String × Value)

/-- Model of row.get(col, ""): the value of the column, or the empty
string when the row lacks the column. -/
def rowGet (r : Row) (c : String) : Value := (List.lookup c r).getD []

/-- The global filter: a finite map from column name to the set of
pattern strings registered for that column (CSVViewer.global_filter,
a dict from str to set). -/
abbrev FilterSet := List (String × List Value)

/-- The per-row predicate of CSVViewer.apply_global_filter: all
filtered columns must have at least one registered pattern that is a
case-insensitive substring of the row's value for that column. -/
def rowMatches (gf : FilterSet) (r : Row) : Bool :=
  gf.all (fun e => e.2.any (fun p => decide (lowerV p <:+: lowerV (rowGet r e.1))))

/-- CSVViewer.apply_global_filter: with an empty filter the view is the
full row list; otherwise the rows satisfying rowMatches, in order. -/
def applyGlobalFilter (rows : List Row) (gf : FilterSet) : List Row :=
  if gf.isEmpty then rows else rows.filter (rowMatches gf)

/-- Value normalization in CSVViewer.update_details: empty or missing
values are replaced by the sentinel "(no value)". -/
def normalizeValue (v : Value) : Value :=
  if v = [] then String.toList "(no value)" else v

/-- One step of the counting loop in CSVViewer.update_details
(defaultdict(int) increment, insertion ordered like a Python dict). -/
def bump (t : List (Value × Nat)) (v : Value) : List (Value × Nat) :=
  match t with
  | [] => [(v, 1)]
  | (w, n) :: rest => if w = v then (w, n + 1) :: rest else (w, n) :: bump rest v

/-- The frequency table built by CSVViewer.update_details over the
filtered rows: for each row, normalizeValue its value for the selected
column and increment that value's count. -/
def aggregate (rows : List Row) (col : String) : List (Value × Nat) :=
  rows.foldl (fun t r => bump t (normalizeValue (rowGet r col))) []

/-- total_filtered_count in CSVViewer.update_details: the sum of the
counts of the table. -/
def tableTotal (t : List (Value × Nat)) : Nat := (t.map Prod.snd).sum

/-- The numeric percentage of CSVViewer.update_details:
(count / total) * 100 if total > 0 else 0, as an exact rational. -/
def pctQ (total c : Nat) : ℚ := if 0 < total then (c : ℚ) / total * 100 else 0

/-- The details table rows (value, count, percentage ratio) built by
CSVViewer.update_details before sorting and formatting. -/
def detailsTable (rows : List Row) (col : String) : List (Value × Nat × ℚ) :=
  let agg := aggregate rows col
  let total := tableTotal agg
  agg.map (fun e => (e.1, e.2, pctQ total e.2))

/-- The sort key used for the percentage column, in hundredths of a
percent.  CSVViewer.update_details formats the percentage to two
decimal places (percentage_str, Python round-half-even) and sorts by
float(percentage_str[:-1]); comparing those parsed floats coincides
with comparing the rounded values as integers of hundredths. -/
def pctHundredths (total c : Nat) : ℤ :=
  if total = 0 then 0
  else
    let num : ℤ := c * 100 * 100
    let q := num / total
    let r := num % total
    if 2 * r < total then q
    else if (total : ℤ) < 2 * r then q + 1
    else if q % 2 = 0 then q else q + 1

/-- The comparator of CSVViewer.update_details in non-strict form:
entryLeB key total a b means a need not come after b when sorting
ascending by the given sort key. -/
def entryLeB (key : String) (total : Nat) (a b : Value × Nat) : Bool :=
  if key = "value" then !(strLt b.1 a.1)
  else if key = "count" then decide (a.2 ≤ b.2)
  else if key = "percentage" then decide (pctHundredths total a.2 ≤ pctHundredths total b.2)
  else true

/-- The sorting step of CSVViewer.update_details: Python's list.sort is
stable, modelled by List.insertionSort on a total preorder; with
reverse=True the key comparison is flipped while ties still keep their
original relative order, exactly as in Python. -/
def sortTable (t : List (Value × Nat)) (key : String) (rev : Bool) : List (Value × Nat) :=
  let total := tableTotal t
  if rev then t.insertionSort (fun a b => entryLeB key total b a = true)
  else t.insertionSort (fun a b => entryLeB key total a b = true)

/-- The sort state (sort_column, sort_reverse) of CSVViewer.
sort_reverse = true means descending (Python sort reverse=True). -/
structure SortState where
  sort_column : String
  sort_reverse : Bool
  deriving DecidableEq

/-- CSVViewer.on_data_table_header_selected: clicking the active key
flips the direction, clicking a different key selects it with
sort_reverse = False. -/
def onHeaderSelected (s : SortState) (k : String) : SortState :=
  if s.sort_column = k then { s with sort_reverse := !s.sort_reverse }
  else { sort_column := k, sort_reverse := false }

/-- The defaulting step at the top of the sorting section of
CSVViewer.update_details: if no sort column has been chosen yet
(empty string is falsy), use count descending. -/
def defaultSortSpec (s : SortState) : SortState :=
  if s.sort_column = "" then { sort_column := "count", sort_reverse := true } else s

/-- Python str.strip applied to the submitted filter text. -/
def trimV (v : Value) : Value :=
  ((v.dropWhile Char.isWhitespace).reverse.dropWhile Char.isWhitespace).reverse

/-- Python set.add on the pattern set of a column. -/
def setAdd (s : List Value) (v : Value) : List Value :=
  if v ∈ s then s else s ++ [v]

/-- Insertion into the global filter dict: add the pattern to the
column's existing set, or create a fresh singleton entry. -/
def fsInsert : FilterSet → String → Value → FilterSet
  | [], c, v => [(c, [v])]
  | e :: rest, c, v =>
    if e.1 = c then (e.1, setAdd e.2 v) :: rest else e :: fsInsert rest c v

/-- Deletion of a column's entry from the global filter dict (the del
statement in CSVViewer.apply_filter); a no-op when absent. -/
def fsRemove (gf : FilterSet) (c : String) : FilterSet :=
  gf.filter (fun e => !(e.1 == c))

/-- A user-visible filter mutation: CSVViewer.apply_filter invoked with
the given selected column and submitted input text. -/
inductive FilterOp where
  | submit (col : String) (text : Value)
  deriving DecidableEq

/-- CSVViewer.apply_filter: strip the text; a non-empty text is added
to the selected column's pattern set, an empty text removes the
column's entry instead. -/
def stepFilter (gf : FilterSet) : FilterOp → FilterSet
  | .submit c txt =>
    if trimV txt = [] then fsRemove gf c else fsInsert gf c (trimV txt)

/-- CSVViewer.on_clear_filters: global_filter.clear(). -/
def clearFilters (_ : FilterSet) : FilterSet := []

/-- Well-formedness of the global filter map: every stored column has a
non-empty pattern set, and every stored pattern is non-empty. -/
def goodFS (gf : FilterSet) : Prop :=
  ∀ e ∈ gf, e.2 ≠ [] ∧ ∀ p ∈ e.2, p ≠ []

/-!
Helper lemmas shared by the claim theorems below.
-/

/-- Membership characterization of the filtered view for a non-empty
filter: the conjunction over filtered columns of the disjunction over
that column's patterns of the case-insensitive substring test. -/
theorem mem_applyGlobalFilter (rows : List Row) (gf : FilterSet) (r : Row) (hne : gf ≠ []) :
    r ∈ applyGlobalFilter rows gf ↔
      r ∈ rows ∧ ∀ e ∈ gf, ∃ p ∈ e.2, lowerV p <:+: lowerV (rowGet r e.1) := by
  match gf, hne with
  | e0 :: gfrest, _ =>
    simp [applyGlobalFilter, rowMatches, List.mem_filter, List.all_eq_true, List.any_eq_true]

/-- One bump of the counting loop raises the sum of the counts by one. -/
theorem bump_sum (t : List (Value × Nat)) (v : Value) :
    ((bump t v).map Prod.snd).sum = (t.map Prod.snd).sum + 1 := by
  induction t with
  | nil => simp [bump]
  | cons e t ih =>
    obtain ⟨w, n⟩ := e
    by_cases h : w = v
    · simp [bump, h]
      omega
    · simp [bump, h, ih]
      omega

/-- The counting loop of update_details adds one to the total per row. -/
theorem foldl_bump_sum (rows : List Row) (col : String) :
    ∀ t : List (Value × Nat),
      ((rows.foldl (fun t r => bump t (normalizeValue (rowGet r col))) t).map Prod.snd).sum
        = (t.map Prod.snd).sum + rows.length := by
  induction rows with
  | nil => intro t; simp
  | cons r rows ih =>
    intro t
    simp only [List.foldl_cons, ih, bump_sum, List.length_cons]
    omega

/-!
Claim theorems.
-/

/-- C1: for every dataset and non-empty filter set, a row is in the
filtered view iff it is a dataset row and, for every column present in
the filter set, at least one pattern registered for that column is a
case-insensitive substring of the row's value for that column (a row
lacking the column being evaluated against the empty string, as
rowGet yields []). -/
theorem filtered_membership_iff (rows : List Row) (gf : FilterSet) (r : Row) (hne : gf ≠ []) :
    r ∈ applyGlobalFilter rows gf ↔
      r ∈ rows ∧ ∀ e ∈ gf, ∃ p ∈ e.2, lowerV p <:+: lowerV (rowGet r e.1) :=
  mem_applyGlobalFilter rows gf r hne

/-- Witness for C1 at a concrete dataset and filter. -/
theorem filtered_membership_iff_witness :
    ([("status", ["ok".toList])] : FilterSet) ≠ [] ∧
      (([("status", "OK".toList)] : Row) ∈
          applyGlobalFilter [[("status", "OK".toList)]] [("status", ["ok".toList])] ↔
        ([("status", "OK".toList)] : Row) ∈ [[("status", "OK".toList)]] ∧
          ∀ e ∈ ([("status", ["ok".toList])] : FilterSet), ∃ p ∈ e.2,
            lowerV p <:+: lowerV (rowGet [("status", "OK".toList)] e.1)) :=
  ⟨by decide, filtered_membership_iff _ _ _ (by decide)⟩

/-- C2: aggregation counts each filtered row exactly once after
normalization, so the counts of the frequency table sum to the number
of rows of the filtered view, and the empty view yields the empty
table (whose total is 0). -/
theorem aggregate_total_eq_length (rows : List Row) (col : String) :
    tableTotal (aggregate rows col) = rows.length ∧ aggregate ([] : List Row) col = [] := by
  constructor
  · simpa [aggregate, tableTotal] using foldl_bump_sum rows col []
  · rfl

/-- C3: the filtered view is exactly the original dataset row list
filtered by the row predicate, hence a sublist of the dataset: the
included rows appear in the original order and filtering never
reorders. -/
theorem filter_preserves_order (rows : List Row) (gf : FilterSet) :
    applyGlobalFilter rows gf = rows.filter (rowMatches gf) ∧
      (applyGlobalFilter rows gf).Sublist rows := by
  have h1 : applyGlobalFilter rows gf = rows.filter (rowMatches gf) := by
    cases gf with
    | nil =>
      simp only [applyGlobalFilter, List.isEmpty_nil, if_true]
      exact (List.filter_eq_self.mpr fun a _ => rfl).symm
    | cons e gfr => simp [applyGlobalFilter]
  exact ⟨h1, h1 ▸ rows.filter_sublist⟩

/-- C4: the empty filter set yields the full dataset view in identical
order, and clearing the filter set after any sequence of apply-filter
operations (additions and removals) restores exactly that view. -/
theorem empty_filter_and_clear_restore (rows : List Row) (ops : List FilterOp) (gf0 : FilterSet) :
    applyGlobalFilter rows [] = rows ∧
      applyGlobalFilter rows (clearFilters (ops.foldl stepFilter gf0)) = rows :=
  ⟨rfl, rfl⟩

/-- Inserting with two comparators that agree on the inserted element
versus the list elements yields the same list. -/
theorem orderedInsert_congr {α : Type} (r s : α → α → Prop) [DecidableRel r] [DecidableRel s]
    (a : α) (l : List α) (h : ∀ b ∈ l, (r a b ↔ s a b)) :
    List.orderedInsert r a l = List.orderedInsert s a l := by
  induction l with
  | nil => rfl
  | cons b l ih =>
    simp only [List.orderedInsert]
    by_cases hb : r a b
    · rw [if_pos hb, if_pos ((h b (by simp)).mp hb)]
    · rw [if_neg hb, if_neg (fun hs => hb ((h b (by simp)).mpr hs)),
        ih (fun c hc => h c (by simp [hc]))]

/-- Sorting with two comparators that agree on all pairs drawn from the
list yields the same list. -/
theorem insertionSort_congr {α : Type} (r s : α → α → Prop) [DecidableRel r] [DecidableRel s]
    (l : List α) (h : ∀ a ∈ l, ∀ b ∈ l, (r a b ↔ s a b)) :
    l.insertionSort r = l.insertionSort s := by
  induction l with
  | nil => rfl
  | cons a l ih =>
    simp only [List.insertionSort]
    rw [ih (fun x hx y hy => h x (by simp [hx]) y (by simp [hy]))]
    apply orderedInsert_congr
    intro b hb
    exact h a (by simp) b (by simp [(List.mem_insertionSort s).mp hb])

/-- Unfolding of the comparator at the count key. -/
theorem entryLeB_count (total : Nat) (a b : Value × Nat) :
    entryLeB "count" total a b = decide (a.2 ≤ b.2) := by
  unfold entryLeB
  rw [if_neg (by decide), if_pos rfl]

/-- Unfolding of the comparator at the percentage key. -/
theorem entryLeB_pct (total : Nat) (a b : Value × Nat) :
    entryLeB "percentage" total a b
      = decide (pctHundredths total a.2 ≤ pctHundredths total b.2) := by
  unfold entryLeB
  rw [if_neg (by decide), if_neg (by decide), if_pos rfl]

/-- C5 counterexample: two entries tied on the primary key (count
1 = 1) are not reordered into ascending value order; the sorted output
keeps "b" before "a" even though "a" < "b".  The source sorts with a
single key and Python's stable sort, with no value tie-break. -/
theorem sort_tie_break_counterexample :
    sortTable [("b".toList, 1), ("a".toList, 1)] "count" true
        = [("b".toList, 1), ("a".toList, 1)] ∧
      strLt "a".toList "b".toList = true := by
  decide

/-- C5 amended: entries tied on the primary sort key (the comparator
accepts them in both orders) keep their relative order from the input
table, for either direction: the sort is stable, so the output order
depends on the table's iteration order rather than on a value
tie-break. -/
theorem sort_ties_stable (t : List (Value × Nat)) (key : String) (rev : Bool)
    (a b : Value × Nat)
    (hab : entryLeB key (tableTotal t) a b = true)
    (hba : entryLeB key (tableTotal t) b a = true)
    (hsub : [a, b].Sublist t) :
    [a, b].Sublist (sortTable t key rev) := by
  cases rev
  · show [a, b].Sublist
      (List.insertionSort (fun x y => entryLeB key (tableTotal t) x y = true) t)
    exact List.pair_sublist_insertionSort hab hsub
  · show [a, b].Sublist
      (List.insertionSort (fun x y => entryLeB key (tableTotal t) y x = true) t)
    exact List.pair_sublist_insertionSort hba hsub

/-- Witness for C5 amended at a concrete tied table. -/
theorem sort_ties_stable_witness :
    entryLeB "count" (tableTotal [("b".toList, 1), ("a".toList, 1)])
        ("b".toList, 1) ("a".toList, 1) = true ∧
      entryLeB "count" (tableTotal [("b".toList, 1), ("a".toList, 1)])
        ("a".toList, 1) ("b".toList, 1) = true ∧
      [("b".toList, 1), ("a".toList, 1)].Sublist
        (sortTable [("b".toList, 1), ("a".toList, 1)] "count" true) :=
  ⟨by decide, by decide,
    sort_ties_stable _ "count" true _ _ (by decide) (by decide) (List.Sublist.refl _)⟩

/-- C6 counterexample: with the active key "count", selecting the
different key "value" yields sort_reverse = false, i.e. ascending —
not descending (sort_reverse = true) as claimed. -/
theorem new_key_direction_counterexample :
    onHeaderSelected { sort_column := "count", sort_reverse := true } "value"
        = { sort_column := "value", sort_reverse := false } ∧
      ¬ (onHeaderSelected { sort_column := "count", sort_reverse := true }
          "value").sort_reverse = true := by
  decide

/-- C6 amended: before any key is chosen the spec defaults to count
descending (sort_reverse = true); selecting the currently active key
flips the direction; selecting a different key sets the active key to
it and the direction to ascending (sort_reverse = false). -/
theorem sort_state_evolution (s : SortState) (b : Bool) (k : String) :
    defaultSortSpec { sort_column := "", sort_reverse := b }
        = { sort_column := "count", sort_reverse := true } ∧
      (s.sort_column = k →
        onHeaderSelected s k = { s with sort_reverse := !s.sort_reverse }) ∧
      (s.sort_column ≠ k →
        onHeaderSelected s k = { sort_column := k, sort_reverse := false }) := by
  refine ⟨rfl, fun h => ?_, fun h => ?_⟩
  · simp [onHeaderSelected, h]
  · simp [onHeaderSelected, h]

/-- Witness for C6 amended: flipping on the active key and switching to
a new key, at concrete states. -/
theorem sort_state_evolution_witness :
    onHeaderSelected { sort_column := "count", sort_reverse := true } "count"
        = { sort_column := "count", sort_reverse := false } ∧
      onHeaderSelected { sort_column := "value", sort_reverse := true } "count"
        = { sort_column := "count", sort_reverse := false } := by
  have h1 := (sort_state_evolution { sort_column := "count", sort_reverse := true }
    false "count").2.1 rfl
  have h2 := (sort_state_evolution { sort_column := "value", sort_reverse := true }
    false "count").2.2 (by decide)
  exact ⟨by simpa using h1, h2⟩

/-- C7 counterexample: a table with total 32768 and counts 3, 2 and
32763.  The percentages of the counts 3 and 2 both format to "0.01"
(their exact values 0.00915...% and 0.00610...% are dyadic, so the
Python float computation is exact), so the percentage sort leaves the
tied pair in input order while the count sort orders it by count: the
two sorted outputs differ. -/
theorem percentage_vs_count_counterexample :
    sortTable [("b".toList, 3), ("a".toList, 2), ("c".toList, 32763)] "percentage" false
      ≠ sortTable [("b".toList, 3), ("a".toList, 2), ("c".toList, 32763)] "count" false := by
  decide

/-- C7 amended: for a fixed table and direction, sorting by percentage
produces the same entry order as sorting by count provided the
two-decimal rounding of the percentages preserves the count order on
the table's entries; the two orders can differ when rounding collapses
distinct counts to equal displayed percentages. -/
theorem percentage_sort_eq_count_sort (t : List (Value × Nat)) (rev : Bool)
    (h : ∀ a ∈ t, ∀ b ∈ t,
      (pctHundredths (tableTotal t) a.2 ≤ pctHundredths (tableTotal t) b.2 ↔ a.2 ≤ b.2)) :
    sortTable t "percentage" rev = sortTable t "count" rev := by
  have key : ∀ a ∈ t, ∀ b ∈ t,
      ((entryLeB "percentage" (tableTotal t) a b = true)
        ↔ (entryLeB "count" (tableTotal t) a b = true)) := by
    intro a ha b hb
    rw [entryLeB_pct, entryLeB_count]
    simp [h a ha b hb]
  cases rev
  · show List.insertionSort (fun x y => entryLeB "percentage" (tableTotal t) x y = true) t
        = List.insertionSort (fun x y => entryLeB "count" (tableTotal t) x y = true) t
    exact insertionSort_congr _ _ t key
  · show List.insertionSort (fun x y => entryLeB "percentage" (tableTotal t) y x = true) t
        = List.insertionSort (fun x y => entryLeB "count" (tableTotal t) y x = true) t
    exact insertionSort_congr _ _ t (fun a ha b hb => key b hb a ha)

/-- Witness for C7 amended at a concrete table whose rounded
percentages (2500 and 7500 hundredths) are ordered like the counts. -/
theorem percentage_sort_eq_count_sort_witness :
    (∀ a ∈ [("a".toList, 1), ("b".toList, 3)], ∀ b ∈ [("a".toList, 1), ("b".toList, 3)],
        (pctHundredths (tableTotal [("a".toList, 1), ("b".toList, 3)]) a.2
            ≤ pctHundredths (tableTotal [("a".toList, 1), ("b".toList, 3)]) b.2 ↔ a.2 ≤ b.2)) ∧
      sortTable [("a".toList, 1), ("b".toList, 3)] "percentage" false
        = sortTable [("a".toList, 1), ("b".toList, 3)] "count" false :=
  ⟨by decide, percentage_sort_eq_count_sort _ false (by decide)⟩


/-- Removing a column's entry preserves well-formedness. -/
theorem goodFS_fsRemove (gf : FilterSet) (c : String) (h : goodFS gf) :
    goodFS (fsRemove gf c) :=
  fun e he => h e (List.mem_of_mem_filter he)

/-- A pattern of an augmented set is an old pattern or the new one. -/
theorem mem_setAdd {s : List Value} {v p : Value} (hp : p ∈ setAdd s v) : p ∈ s ∨ p = v := by
  unfold setAdd at hp
  by_cases h : v ∈ s
  · rw [if_pos h] at hp
    exact Or.inl hp
  · rw [if_neg h] at hp
    rcases List.mem_append.mp hp with h1 | h2
    · exact Or.inl h1
    · exact Or.inr (List.mem_singleton.mp h2)

/-- An augmented pattern set is never empty. -/
theorem setAdd_ne_nil (s : List Value) (v : Value) : setAdd s v ≠ [] := by
  unfold setAdd
  by_cases h : v ∈ s
  · rw [if_pos h]
    intro hnil
    rw [hnil] at h
    exact (List.not_mem_nil v) h
  · rw [if_neg h]
    simp

/-- Inserting a non-empty pattern preserves well-formedness. -/
theorem goodFS_fsInsert (c : String) (v : Value) (hv : v ≠ []) :
    ∀ gf : FilterSet, goodFS gf → goodFS (fsInsert gf c v) := by
  intro gf
  induction gf with
  | nil =>
    intro _ e he
    simp only [fsInsert, List.mem_singleton] at he
    subst he
    refine ⟨by simp, ?_⟩
    intro p hp
    rw [List.mem_singleton.mp hp]
    exact hv
  | cons e0 rest ih =>
    intro h e he
    by_cases hc : e0.1 = c
    · simp only [fsInsert, if_pos hc] at he
      rcases List.mem_cons.mp he with h1 | h2
      · subst h1
        refine ⟨setAdd_ne_nil _ _, ?_⟩
        intro p hp
        rcases mem_setAdd hp with hy | hy
        · exact (h e0 (by simp)).2 p hy
        · rw [hy]
          exact hv
      · exact h e (by simp [h2])
    · simp only [fsInsert, if_neg hc] at he
      rcases List.mem_cons.mp he with h1 | h2
      · rw [h1]
        exact h e0 (by simp)
      · exact ih (fun x hx => h x (by simp [hx])) e h2

/-- One apply-filter step preserves well-formedness. -/
theorem goodFS_step (gf : FilterSet) (op : FilterOp) (h : goodFS gf) :
    goodFS (stepFilter gf op) := by
  cases op with
  | submit c txt =>
    simp only [stepFilter]
    by_cases ht : trimV txt = []
    · rw [if_pos ht]
      exact goodFS_fsRemove _ _ h
    · rw [if_neg ht]
      exact goodFS_fsInsert c (trimV txt) ht gf h

/-- A sequence of apply-filter steps preserves well-formedness. -/
theorem goodFS_foldl (ops : List FilterOp) :
    ∀ gf : FilterSet, goodFS gf → goodFS (ops.foldl stepFilter gf) := by
  induction ops with
  | nil => intro gf h; exact h
  | cons op ops ih => intro gf h; exact ih _ (goodFS_step gf op h)

/-- C8: after every sequence of filter operations starting from the
empty filter map, every stored column has a non-empty pattern set of
non-empty patterns; and submitting a pattern that is empty after
trimming removes the column's entry instead of storing anything. -/
theorem filter_map_entries_nonempty (ops : List FilterOp) (gf : FilterSet) (c : String)
    (txt : Value) (e : String × List Value) (he : e ∈ ops.foldl stepFilter []) :
    (e.2 ≠ [] ∧ ∀ p ∈ e.2, p ≠ []) ∧
      (trimV txt = [] → stepFilter gf (.submit c txt) = fsRemove gf c) := by
  constructor
  · exact goodFS_foldl ops [] (fun x hx => absurd hx (List.not_mem_nil x)) e he
  · intro ht
    simp only [stepFilter]
    rw [if_pos ht]

/-- Witness for C8 after one concrete apply-filter step. -/
theorem filter_map_entries_nonempty_witness :
    (("status", ["ok".toList]) ∈ ([FilterOp.submit "status" " ok ".toList].foldl stepFilter []) ∧
      ((("status", ["ok".toList]) : String × List Value).2 ≠ [] ∧
        ∀ p ∈ (("status", ["ok".toList]) : String × List Value).2, p ≠ []) ∧
      (trimV "".toList = [] →
        stepFilter [] (.submit "region" "".toList) = fsRemove [] "region")) :=
  ⟨by decide,
    filter_map_entries_nonempty [FilterOp.submit "status" " ok ".toList]
      [] "region" "".toList ("status", ["ok".toList]) (by decide)⟩

/-- C9: the percentage of every entry of the details table is
guarded by the total: when the total of the frequency table is 0 the
percentage is defined as 0 (the division is never evaluated), and
when the total is positive it is count / total * 100. -/
theorem percentage_total_zero_safe (rows : List Row) (col : String) (v : Value) (c : Nat)
    (p : ℚ) (hmem : (v, c, p) ∈ detailsTable rows col) :
    (tableTotal (aggregate rows col) = 0 → p = 0) ∧
      (0 < tableTotal (aggregate rows col) →
        p = (c : ℚ) / (tableTotal (aggregate rows col)) * 100) := by
  simp only [detailsTable, List.mem_map, Prod.ext_iff] at hmem
  obtain ⟨e, _, h1, h2, h3⟩ := hmem
  constructor
  · intro h0
    rw [← h3]
    simp [pctQ, h0]
  · intro hpos
    rw [← h3, ← h2]
    simp only [pctQ, if_pos hpos]

/-- Witness for C9 at a concrete one-row dataset. -/
theorem percentage_total_zero_safe_witness :
    ("x".toList, 1, (100 : ℚ)) ∈ detailsTable [[("s", "x".toList)]] "s" ∧
      (tableTotal (aggregate [[("s", "x".toList)]] "s") = 0 → (100 : ℚ) = 0) ∧
      (0 < tableTotal (aggregate [[("s", "x".toList)]] "s") →
        (100 : ℚ) = (1 : ℚ) / (tableTotal (aggregate [[("s", "x".toList)]] "s")) * 100) := by
  have hmem : ("x".toList, 1, (100 : ℚ)) ∈ detailsTable [[("s", "x".toList)]] "s" := by
    norm_num [detailsTable, aggregate, bump, normalizeValue, rowGet, tableTotal, pctQ,
      List.lookup]
  exact ⟨hmem, percentage_total_zero_safe [[("s", "x".toList)]] "s" "x".toList 1 100 hmem⟩

/-- C10: filtering matches patterns against the raw cell value while
the distribution displays the normalized sentinel: the empty raw value
normalizes to "(no value)", no non-empty pattern (in particular not
the sentinel text itself) is a case-insensitive substring of the empty
raw value, and hence a row whose raw value for a filtered column is
empty is excluded from the filtered view whenever that column's
registered patterns are all non-empty. -/
theorem empty_value_never_matches (rows : List Row) (gf : FilterSet) (r : Row) (c : String)
    (ps : List Value) (hmem : (c, ps) ∈ gf) (hraw : rowGet r c = [])
    (hps : ∀ p ∈ ps, p ≠ []) :
    normalizeValue [] = "(no value)".toList ∧
      ¬ lowerV "(no value)".toList <:+: lowerV ([] : Value) ∧
      r ∉ applyGlobalFilter rows gf := by
  refine ⟨rfl, by decide, ?_⟩
  intro hr
  have hne : gf ≠ [] := by
    intro h
    rw [h] at hmem
    exact (List.not_mem_nil _) hmem
  obtain ⟨p, hp, hinf⟩ := ((mem_applyGlobalFilter rows gf r hne).mp hr).2 (c, ps) hmem
  rw [hraw] at hinf
  have hnil : lowerV p = [] := List.infix_nil.mp hinf
  exact hps p hp (List.map_eq_nil_iff.mp hnil)

/-- Witness for C10 at a concrete row with an empty status value. -/
theorem empty_value_never_matches_witness :
    (("status", ["ok".toList]) ∈ ([("status", ["ok".toList])] : FilterSet)) ∧
      rowGet [("status", ([] : Value))] "status" = [] ∧
      (∀ p ∈ (["ok".toList] : List Value), p ≠ []) ∧
      (normalizeValue [] = "(no value)".toList ∧
        ¬ lowerV "(no value)".toList <:+: lowerV ([] : Value) ∧
        ([("status", ([] : Value))] : Row) ∉
          applyGlobalFilter [[("status", ([] : Value))]] [("status", ["ok".toList])]) :=
  ⟨by decide, by decide, by decide,
    empty_value_never_matches [[("status", ([] : Value))]] [("status", ["ok".toList])]
      [("status", ([] : Value))] "status" ["ok".toList] (by decide) (by decide) (by decide)⟩
